import Mathlib

/-!
# PaperlessLink — a verification development

Shallow embedding of the PaperlessLink daemon (Go) and proofs about it:

* the generation-based debounce engine of `watcher.Watch` (`watcher/watcher.go`),
* the extension filter `allowed` and `config.ParseExtensions`,
* the upload pipeline `uploader.Upload` / `postDocument` / `postUploadAction` /
  `moveFile` / `copyFile` (`uploader/uploader.go`).

Go maps keyed by `string` are embedded as association lists with first-match
lookup; file contents are byte sequences (`List Nat`); the filesystem, the HTTP
transport and the OS failure modes of each syscall are explicit parameters
(oracles), so every function is a pure, executable Lean definition.
Paths use `/` as the separator (the Unix build of `path/filepath`).
-/

namespace PaperlessLink

/-! ## Association-list maps (embedding of Go `map[string]V`) -/

/-- First-match lookup in an association list (Go map read, `v, ok := m[k]`). -/
def alookup {α : Type} (m : List (String × α)) (k : String) : Option α :=
  (m.find? (fun e => e.1 == k)).map (fun e => e.2)

/-- Insert/overwrite a key (Go map write `m[k] = v`). -/
def ainsert {α : Type} (m : List (String × α)) (k : String) (v : α) :
    List (String × α) :=
  (k, v) :: m.filter (fun e => e.1 != k)

/-- Remove a key (Go `delete(m, k)`). -/
def aerase {α : Type} (m : List (String × α)) (k : String) : List (String × α) :=
  m.filter (fun e => e.1 != k)

/-- Go map read with the zero value for a missing key (`m[k]` for `map[string]int`). -/
def alookupD (m : List (String × Nat)) (k : String) : Nat :=
  (alookup m k).getD 0

theorem alookup_ainsert_self {α : Type} (m : List (String × α)) (k : String) (v : α) :
    alookup (ainsert m k v) k = some v := by
  simp [alookup, ainsert, List.find?]

theorem alookup_ainsert_ne {α : Type} (m : List (String × α)) (k k' : String) (v : α)
    (h : k' ≠ k) : alookup (ainsert m k v) k' = alookup m k' := by
  have hbeq : (k == k') = false := by
    simp [beq_iff_eq]
    exact fun he => h he.symm
  simp only [alookup, ainsert, List.find?, hbeq]
  induction m with
  | nil => rfl
  | cons e rest ih =>
    by_cases he : e.1 = k
    · have h1 : (e.1 != k) = false := by simp [he]
      have h2 : (e.1 == k') = false := by
        simp [beq_iff_eq, he]
        exact fun hc => h hc.symm
      simp only [List.filter, h1, List.find?, h2]
      exact ih
    · have h1 : (e.1 != k) = true := by simp [he]
      simp only [List.filter, h1, List.find?]
      cases hk : (e.1 == k') with
      | true => rfl
      | false => exact ih

theorem alookup_aerase_self {α : Type} (m : List (String × α)) (k : String) :
    alookup (aerase m k) k = none := by
  induction m with
  | nil => rfl
  | cons e rest ih =>
    by_cases he : e.1 = k
    · have h1 : (e.1 != k) = false := by simp [he]
      simp only [aerase, List.filter, h1]
      exact ih
    · have h1 : (e.1 != k) = true := by simp [he]
      have h2 : (e.1 == k) = false := by simp [he]
      simp only [aerase, List.filter, h1, alookup, List.find?, h2]
      exact ih

theorem alookup_aerase_ne {α : Type} (m : List (String × α)) (k k' : String)
    (h : k' ≠ k) : alookup (aerase m k) k' = alookup m k' := by
  induction m with
  | nil => rfl
  | cons e rest ih =>
    by_cases he : e.1 = k
    · have h1 : (e.1 != k) = false := by simp [he]
      have h2 : (e.1 == k') = false := by
        simp [beq_iff_eq, he]
        exact fun hc => h hc.symm
      simp only [aerase, List.filter, h1, alookup, List.find?, h2]
      exact ih
    · have h1 : (e.1 != k) = true := by simp [he]
      simp only [aerase, List.filter, h1, alookup, List.find?]
      cases hk : (e.1 == k') with
      | true => rfl
      | false => exact ih

/-! ## Go string / filepath helpers -/

/-- `strings.TrimPrefix(s, ".")`: strip one leading dot if present. -/
def trimDot (s : String) : String :=
  match s.data with
  | '.' :: rest => String.mk rest
  | _ => s

/-- `strings.TrimSuffix(s, suf)`: strip one trailing copy of `suf` if present. -/
def goTrimSuffix (s suf : String) : String :=
  if suf.data.isSuffixOf s.data then
    String.mk (s.data.take (s.data.length - suf.data.length))
  else s

/-- `strings.ToLower(s)` (ASCII case mapping; the inputs of interest here are
ASCII file extensions). -/
def toLowerStr (s : String) : String :=
  String.mk (s.data.map Char.toLower)

/-- `strings.TrimSpace(s)`: strip leading and trailing whitespace. -/
def trimSpace (s : String) : String :=
  String.mk (((s.data.dropWhile Char.isWhitespace).reverse.dropWhile
    Char.isWhitespace).reverse)

/-- Helper for `strings.Split(raw, ",")`: split a character list at commas,
`acc` holding the current component reversed. -/
def splitCore (acc : List Char) : List Char → List String
  | [] => [String.mk acc.reverse]
  | c :: rest =>
    if c == ',' then String.mk acc.reverse :: splitCore [] rest
    else splitCore (c :: acc) rest

/-- `strings.Split(s, ",")`. -/
def splitComma (s : String) : List String :=
  splitCore [] s.data

/-- `strings.TrimRight(s, "/")`: strip all trailing slashes. -/
def trimRightSlashes (s : String) : String :=
  String.mk ((s.data.reverse.dropWhile (fun c => c == '/')).reverse)

/-- Helper for `filepath.Ext`: walk the path backwards (`rev` is the reversed
tail still to scan, `acc` the characters already passed, in original order);
return the suffix starting at the final dot, or `[]` when a path separator
is reached first. -/
def extCore (acc : List Char) : List Char → List Char
  | [] => []
  | c :: rest =>
    if c == '/' then []
    else if c == '.' then c :: acc
    else extCore (c :: acc) rest

/-- `filepath.Ext(path)`: the suffix beginning at the final dot in the final
slash-separated element of `path`; empty if there is no dot. -/
def filepathExt (path : String) : String :=
  String.mk (extCore [] path.data.reverse)

/-- `filepath.Base(path)`: last element of the path after stripping trailing
slashes; `"."` for the empty path, `"/"` when the path is all slashes. -/
def filepathBase (path : String) : String :=
  if path == "" then "."
  else
    let stripped := (path.data.reverse.dropWhile (fun c => c == '/')).reverse
    let name := (stripped.reverse.takeWhile (fun c => c != '/')).reverse
    if name.isEmpty then "/" else String.mk name

/-- `filepath.Join(dir, name)` for a separator-free `name`. -/
def joinPath (dir name : String) : String := dir ++ "/" ++ name

/-! ## config package -/

/-- `config.AfterUpload` constant `"delete"`. -/
def afterUploadDelete : String := "delete"

/-- `config.AfterUpload` constant `"backup"`. -/
def afterUploadBackup : String := "backup"

/-- `config.Config` (fields used by the watcher and the uploader; the allowed
extension set is an association-free list of distinct strings). -/
structure Config where
  watchDir : String
  paperlessURL : String
  token : String
  allowedExts : List String
  renameToUUID : Bool
  afterUpload : String
  backupDir : String
deriving Repr, DecidableEq

/-- Normalisation applied by `config.ParseExtensions` to each comma-separated
component: `strings.TrimSpace`, `strings.ToLower`, `strings.TrimPrefix(·, ".")`. -/
def normExt (e : String) : String :=
  trimDot (toLowerStr (trimSpace e))

/-- The loop body of `config.ParseExtensions`: normalise one component and add
it to the set when non-empty (`result[e] = struct{}{}`; re-inserting an
existing key leaves a Go map unchanged, so the first occurrence is kept). -/
def insertExt (result : List String) (e : String) : List String :=
  let e := normExt e
  if e != "" && !result.contains e then result ++ [e] else result

/-- `config.ParseExtensions(raw)`: split on commas, normalise each component
and collect the non-empty results as a set. -/
def ParseExtensions (raw : String) : List String :=
  if raw == "" then [] else (splitComma raw).foldl insertExt []

/-- `watcher.allowed(path, exts)`: true when the set is empty, otherwise the
path's extension — lower-cased, leading dot stripped — must be a member. -/
def allowed (path : String) (exts : List String) : Bool :=
  if exts.length == 0 then true
  else exts.contains (trimDot (toLowerStr (filepathExt path)))

/-! ## watcher package: the debounce engine

`watcher.Watch` runs a single select loop over three message sources: raw
`fsnotify` events, timer messages on `timerCh`, and the stop channel.  The
loop state (the `timers` and `gens` maps and the paths sent on `out`) is
embedded as `WState`; one iteration of the loop body is `processMsg`.  The
readiness probe `waitForFile` performs real I/O and is abstracted as a
boolean oracle `fr`; paths are taken as already absolute (`filepath.Abs`
succeeding is the non-error path of the loop). -/

/-- `fsnotify.Create` bit. -/
def fsnotifyCreate : Nat := 1

/-- `fsnotify.Write` bit. -/
def fsnotifyWrite : Nat := 2

/-- `debounceDelay = 750 * time.Millisecond`, in milliseconds. -/
def debounceDelay : Nat := 750

/-- A message consumed by the select loop of `watcher.Watch`: a raw
`fsnotify` event (with its operation bitmask) or a `debounceMsg` arriving on
`timerCh` with its captured generation. -/
inductive WMsg where
  | event (path : String) (op : Nat)
  | timer (path : String) (gen : Nat)
deriving Repr, DecidableEq

/-- The state owned by the `watcher.Watch` goroutine: `timers` maps a path to
the generation captured by its currently scheduled timer, `gens` is the
per-path generation counter, `out` the paths emitted on the output channel
(oldest first). -/
structure WState where
  timers : List (String × Nat)
  gens : List (String × Nat)
  out : List String
deriving Repr, DecidableEq

/-- The initial loop state: empty maps, nothing emitted. -/
def initWState : WState := ⟨[], [], []⟩

/-- One iteration of the select loop of `watcher.Watch`.

* On a raw event whose op has neither the Create nor the Write bit, do
  nothing (`continue`).  Otherwise stop any existing timer for the path
  (visible only in the timer environment, not in the loop state), bump
  `gens[path]`, and schedule a fresh timer capturing the new generation.
* On a timer message, discard it if its captured generation differs from
  `gens[path]` (a missing entry reads as the zero value); otherwise delete
  the path from both maps, and emit the path on `out` provided its extension
  is allowed and the readiness probe `fr` succeeds. -/
def processMsg (exts : List String) (fr : String → Bool) (s : WState) :
    WMsg → WState
  | .event path op =>
    if Nat.land op (Nat.lor fsnotifyCreate fsnotifyWrite) == 0 then s
    else
      let gen := alookupD s.gens path + 1
      { s with gens := ainsert s.gens path gen,
               timers := ainsert s.timers path gen }
  | .timer path gen =>
    if alookupD s.gens path != gen then s
    else
      let s1 := { s with timers := aerase s.timers path,
                         gens := aerase s.gens path }
      if !allowed path exts then s1
      else if !fr path then s1
      else { s1 with out := s1.out ++ [path] }

/-- Run the select loop over a finite message sequence. -/
def runMsgs (exts : List String) (fr : String → Bool) (s : WState)
    (msgs : List WMsg) : WState :=
  msgs.foldl (processMsg exts fr) s

/-- `withinDelay delay times`: each event time arrives strictly before its
predecessor's timer would fire (`tᵢ₊₁ < tᵢ + delay`). -/
def withinDelay (delay : Nat) : List Nat → Bool
  | [] => true
  | [_] => true
  | t₁ :: t₂ :: rest =>
    decide (t₂ < t₁ + delay) && withinDelay delay (t₂ :: rest)

/-- Timer environment for a burst of raw events on a single path at the given
times: the timer scheduled by the i-th event (capturing generation `g + i`) is
stopped — and its message never reaches `timerCh` — exactly when the next
event arrives strictly before it fires; `firedGens` lists the captured
generations of the timers that do fire, in firing order. -/
def firedGens (delay : Nat) (g : Nat) : List Nat → List Nat
  | [] => []
  | [_] => [g + 1]
  | t₁ :: t₂ :: rest =>
    if t₂ < t₁ + delay then firedGens delay (g + 1) (t₂ :: rest)
    else (g + 1) :: firedGens delay (g + 1) (t₂ :: rest)

example : filepathExt "a.PNG" = ".PNG" := by decide
example : filepathExt "/watch/doc.pdf" = ".pdf" := by decide
example : filepathExt ".pdf" = ".pdf" := by decide
example : filepathExt "noext" = "" := by decide
example : filepathBase "/watch/doc.pdf" = "doc.pdf" := by decide
example : allowed "a.PNG" ["pdf"] = false := by decide
example : allowed "a.pdf" ["PDF"] = false := by decide
example : allowed "a.pdf" ["pdf"] = true := by decide
example : ParseExtensions " .PDF, png,,pdf " = ["pdf", "png"] := by decide

/-! ## uploader package

The filesystem is a map from paths to byte contents; every fallible OS call
gets an explicit failure-injection flag (an oracle), so the error paths of
`copyFile`, `moveFile`, `postUploadAction` and `Upload` are all reachable in
the model.  Results are pairs `(ok, fs)`: the Go `error` collapsed to a
success flag, plus the filesystem after the call (which may have changed even
on failure, e.g. a partially written destination). -/

/-- File contents as a byte sequence. -/
abbrev Bytes := List Nat

/-- The filesystem: a map from absolute paths to contents. -/
abbrev FS := List (String × Bytes)

/-- Failure injection for one `copyFile` call: `os.Open(src)`,
`os.Create(dst)`, `io.Copy`, `out.Sync()`. -/
structure CopyOracle where
  openFails : Bool
  createFails : Bool
  writeFails : Bool
  syncFails : Bool
deriving Repr, DecidableEq

/-- An oracle on which every call succeeds. -/
def copyOk : CopyOracle := ⟨false, false, false, false⟩

/-- `uploader.copyFile(src, dst)`: open `src` (fails when absent or on an
injected error), create (truncate) `dst`, copy the contents, sync.  A failing
`io.Copy` leaves `dst` truncated; a failing `Sync` leaves the contents
written but reports the error.  `src` is never written. -/
def copyFile (o : CopyOracle) (fs : FS) (src dst : String) : Bool × FS :=
  if o.openFails then (false, fs)
  else
    match alookup fs src with
    | none => (false, fs)
    | some content =>
      if o.createFails then (false, fs)
      else if o.writeFails then (false, ainsert fs dst [])
      else
        let fs1 := ainsert fs dst content
        if o.syncFails then (false, fs1) else (true, fs1)

/-- Failure injection for one `moveFile` call: `os.Rename` (e.g. cross-device),
the fallback `copyFile`, and the final `os.Remove(src)`. -/
structure MoveOracle where
  renameFails : Bool
  copy : CopyOracle
  removeFails : Bool
deriving Repr, DecidableEq

/-- `uploader.moveFile(src, dst)`: try `os.Rename` (succeeds when `src`
exists and no cross-device error is injected); otherwise fall back to
`copyFile(src, dst)` followed by `os.Remove(src)`, returning the copy error
without removing `src` when the copy fails. -/
def moveFile (o : MoveOracle) (fs : FS) (src dst : String) : Bool × FS :=
  match alookup fs src with
  | some content =>
    if !o.renameFails then (true, ainsert (aerase fs src) dst content)
    else
      let r := copyFile o.copy fs src dst
      if !r.1 then (false, r.2)
      else if o.removeFails then (false, r.2)
      else (true, aerase r.2 src)
  | none =>
    -- `os.Rename` fails on a missing source, and so does the fallback copy.
    (false, fs)

/-- Failure injection for `postUploadAction`: `os.Remove(filePath)` in the
delete branch, and the `moveFile` call in the backup branch. -/
structure ActionOracle where
  deleteFails : Bool
  move : MoveOracle
deriving Repr, DecidableEq

/-- `uploader.postUploadAction(cfg, filePath)`: switch on `cfg.AfterUpload`;
`delete` removes the original file, `backup` moves it to
`BackupDir/Base(filePath)`; any other value does nothing and returns nil. -/
def postUploadAction (cfg : Config) (o : ActionOracle) (fs : FS)
    (filePath : String) : Bool × FS :=
  if cfg.afterUpload == afterUploadDelete then
    if o.deleteFails then (false, fs)
    else
      match alookup fs filePath with
      | none => (false, fs)
      | some _ => (true, aerase fs filePath)
  else if cfg.afterUpload == afterUploadBackup then
    moveFile o.move fs filePath (joinPath cfg.backupDir (filepathBase filePath))
  else (true, fs)

/-- The result of `client.Do(req)`: a transport-level error, or an HTTP
response with its status code and body. -/
inductive HttpOutcome where
  | transportErr
  | response (status : Nat) (body : String)
deriving Repr, DecidableEq

/-- The multipart POST request built by `postDocument`: the endpoint, the
authorization header value, the document part (its `filename=`, inferred MIME
type and byte content) and the `title` field. -/
structure PostReq where
  endpoint : String
  authToken : String
  docFilename : String
  docMime : String
  docContent : Bytes
  title : String
deriving Repr, DecidableEq

/-- `uploader.postDocument(cfg, filePath, title)`: open the file (first
component `none` and failure when it is absent), build the multipart request
— document part named after `Base(filePath)` with the MIME type inferred
from the lower-cased extension (falling back to `application/octet-stream`),
plus the `title` field — and POST it; success exactly when the response
status lies in [200, 300). `mimeOf` abstracts `mime.TypeByExtension`. -/
def postDocument (cfg : Config) (mimeOf : String → String)
    (http : HttpOutcome) (fs : FS) (filePath title : String) :
    Option PostReq × Bool :=
  match alookup fs filePath with
  | none => (none, false)
  | some content =>
    let mt := mimeOf (toLowerStr (filepathExt filePath))
    let mimeType := if mt == "" then "application/octet-stream" else mt
    let req : PostReq :=
      { endpoint := trimRightSlashes cfg.paperlessURL ++
          "/api/documents/post_document/"
        authToken := "Token " ++ cfg.token
        docFilename := filepathBase filePath
        docMime := mimeType
        docContent := content
        title := title }
    match http with
    | .transportErr => (some req, false)
    | .response status _ =>
      if status < 200 || 300 ≤ status then (some req, false)
      else (some req, true)

/-- `os.TempDir()` on the Unix build. -/
def tempDir : String := "/tmp"

/-- The environment of one `Upload` call: the fresh UUID string, the MIME
table, the HTTP outcome, and the failure oracles of the temp copy and of the
post-upload action. -/
structure UploadEnv where
  uuid : String
  mimeOf : String → String
  http : HttpOutcome
  uuidCopy : CopyOracle
  action : ActionOracle

/-- The outcome of one `Upload` call: the success flag, the HTTP request that
was actually sent (if the pipeline got that far), and the final filesystem. -/
structure UploadResult where
  ok : Bool
  req : Option PostReq
  fs : FS
deriving Repr, DecidableEq

/-- The tail of `uploader.Upload` after the optional UUID rename: compute the
title as the stem of the original filename, POST the document, and on success
run the post-upload action.  When `cleanupTemp` is set (the rename branch
registered its `defer`), the temp file at `uploadPath` is removed on every
exit path. -/
def uploadCore (cfg : Config) (env : UploadEnv) (fs : FS)
    (filePath uploadPath : String) (cleanupTemp : Bool) : UploadResult :=
  let originalName := filepathBase filePath
  let stem := goTrimSuffix originalName (filepathExt originalName)
  let pr := postDocument cfg env.mimeOf env.http fs uploadPath stem
  let final := fun (fsx : FS) => if cleanupTemp then aerase fsx uploadPath else fsx
  if !pr.2 then { ok := false, req := pr.1, fs := final fs }
  else
    let ar := postUploadAction cfg env.action fs filePath
    { ok := ar.1, req := pr.1, fs := final ar.2 }

/-- `uploader.Upload(cfg, filePath)`: when `cfg.RenameToUUID` is set, copy the
source to `TempDir/uuid+ext` first — aborting on a copy error — and register
the deferred removal of that temp copy; then proceed with `uploadCore`. -/
def Upload (cfg : Config) (env : UploadEnv) (fs : FS) (filePath : String) :
    UploadResult :=
  if cfg.renameToUUID then
    let ext := filepathExt filePath
    let uuidName := env.uuid ++ ext
    let uploadPath := joinPath tempDir uuidName
    let r := copyFile env.uuidCopy fs filePath uploadPath
    if !r.1 then { ok := false, req := none, fs := r.2 }
    else uploadCore cfg env r.2 filePath uploadPath true
  else uploadCore cfg env fs filePath filePath false

/-- The path of the file actually posted by `Upload`. -/
def effectivePath (cfg : Config) (env : UploadEnv) (filePath : String) :
    String :=
  if cfg.renameToUUID then joinPath tempDir (env.uuid ++ filepathExt filePath)
  else filePath

/-! ## Derived lemmas on the map embedding -/

theorem alookupD_ainsert_self (m : List (String × Nat)) (k : String) (v : Nat) :
    alookupD (ainsert m k v) k = v := by
  simp [alookupD, alookup_ainsert_self]

theorem alookupD_ainsert_ne (m : List (String × Nat)) (k k' : String) (v : Nat)
    (h : k' ≠ k) : alookupD (ainsert m k v) k' = alookupD m k' := by
  simp [alookupD, alookup_ainsert_ne m k k' v h]

/-! ## Claim C2: generation counter -/

/-- C2: the per-path generation counter is bumped by exactly one on every
processed Create/Write raw event (so it strictly increases), and a timer
message whose captured generation differs from the path's current generation
leaves the loop state completely unchanged — no ready-signal, no map
mutation. -/
theorem watcher_generation_invariant :
    (∀ (exts : List String) (fr : String → Bool) (s : WState) (path : String)
        (op : Nat),
        (Nat.land op (Nat.lor fsnotifyCreate fsnotifyWrite) == 0) = false →
        alookupD (processMsg exts fr s (WMsg.event path op)).gens path
          = alookupD s.gens path + 1) ∧
    (∀ (exts : List String) (fr : String → Bool) (s : WState) (path : String)
        (gen : Nat),
        alookupD s.gens path ≠ gen →
        processMsg exts fr s (WMsg.timer path gen) = s) := by
  constructor
  · intro exts fr s path op h
    simp only [processMsg, h, Bool.false_eq_true, if_false]
    exact alookupD_ainsert_self _ _ _
  · intro exts fr s path gen h
    have hb : (alookupD s.gens path != gen) = true := by
      simpa [bne_iff_ne] using h
    simp only [processMsg, hb, if_true]

/-- Witness for C2 at a concrete state: a Write event bumps the generation of
`/watch/a.pdf`, and a stale timer message (captured generation 1 against
current generation 2) is a no-op. -/
theorem watcher_generation_invariant_witness :
    alookupD (processMsg [] (fun _ => true) initWState
        (WMsg.event "/watch/a.pdf" fsnotifyWrite)).gens "/watch/a.pdf"
      = alookupD initWState.gens "/watch/a.pdf" + 1 ∧
    processMsg [] (fun _ => true)
        { initWState with gens := [("/watch/a.pdf", 2)] }
        (WMsg.timer "/watch/a.pdf" 1)
      = { initWState with gens := [("/watch/a.pdf", 2)] } :=
  ⟨watcher_generation_invariant.1 [] (fun _ => true) initWState
      "/watch/a.pdf" fsnotifyWrite (by decide),
   watcher_generation_invariant.2 [] (fun _ => true)
      { initWState with gens := [("/watch/a.pdf", 2)] }
      "/watch/a.pdf" 1 (by decide)⟩

/-! ## Claim C3: extension filter -/

/-- C3 counterexample: the claim asserts `allowed("a.pdf", {"PDF"})` is true,
but `allowed` lower-cases only the path's extension and compares set members
verbatim, so the lookup of `"pdf"` in `{"PDF"}` fails. -/
theorem allowed_upper_set_cex : allowed "a.pdf" ["PDF"] = false := by decide

/-- C3 (amended): `allowed(path, {})` is true for every path and
`allowed("a.PNG", {"pdf"})` is false; case-insensitivity applies to the
path's extension only (lower-cased, leading dot stripped), while set members
are compared verbatim: `allowed("a.pdf", {"pdf"})` is true but
`allowed("a.pdf", {"PDF"})` is false. -/
theorem allowed_extension_filter :
    (∀ path : String, allowed path [] = true) ∧
    allowed "a.PNG" ["pdf"] = false ∧
    allowed "a.pdf" ["pdf"] = true ∧
    allowed "a.pdf" ["PDF"] = false :=
  ⟨fun _ => rfl, by decide, by decide, by decide⟩

/-! ## Claim C8: ParseExtensions -/

theorem insertExt_mem (acc : List String) (c x : String) :
    x ∈ insertExt acc c ↔ x ∈ acc ∨ (x ≠ "" ∧ normExt c = x) := by
  simp only [insertExt]
  by_cases hc : normExt c = ""
  · rw [hc]
    simp only [bne_self_eq_false, Bool.false_and, Bool.false_eq_true, if_false]
    constructor
    · exact Or.inl
    · rintro (h | ⟨hx, he⟩)
      · exact h
      · exact absurd he.symm hx
  · by_cases hm : normExt c ∈ acc
    · have hcont : (!acc.contains (normExt c)) = false := by simpa using hm
      simp only [hcont, Bool.and_false, Bool.false_eq_true, if_false]
      constructor
      · exact Or.inl
      · rintro (h | ⟨hx, he⟩)
        · exact h
        · exact he ▸ hm
    · have hb : (normExt c != "") = true := bne_iff_ne.mpr hc
      have hcont : (!acc.contains (normExt c)) = true := by simpa using hm
      simp only [hb, hcont, Bool.and_self, if_true, List.mem_append,
        List.mem_singleton]
      constructor
      · rintro (h | h)
        · exact Or.inl h
        · exact Or.inr ⟨by rw [h]; exact hc, h.symm⟩
      · rintro (h | ⟨hx, he⟩)
        · exact Or.inl h
        · exact Or.inr he.symm

theorem insertExt_foldl_mem (l : List String) :
    ∀ (acc : List String) (x : String),
      x ∈ l.foldl insertExt acc ↔
        x ∈ acc ∨ (x ≠ "" ∧ ∃ c ∈ l, normExt c = x) := by
  induction l with
  | nil => intro acc x; simp
  | cons c l ih =>
    intro acc x
    rw [List.foldl_cons, ih, insertExt_mem]
    constructor
    · rintro ((h | ⟨hx, he⟩) | ⟨hx, d, hd, hdx⟩)
      · exact Or.inl h
      · exact Or.inr ⟨hx, c, List.mem_cons_self c l, he⟩
      · exact Or.inr ⟨hx, d, List.mem_cons_of_mem c hd, hdx⟩
    · rintro (h | ⟨hx, d, hd, hdx⟩)
      · exact Or.inl (Or.inl h)
      · rcases List.mem_cons.mp hd with rfl | hdl
        · exact Or.inl (Or.inr ⟨hx, hdx⟩)
        · exact Or.inr ⟨hx, d, hdl, hdx⟩

theorem insertExt_foldl_nodup (l : List String) :
    ∀ acc : List String, acc.Nodup → (l.foldl insertExt acc).Nodup := by
  induction l with
  | nil => intro acc h; simpa using h
  | cons c l ih =>
    intro acc h
    rw [List.foldl_cons]
    apply ih
    simp only [insertExt]
    by_cases hcond : (normExt c != "" && !acc.contains (normExt c)) = true
    · rw [if_pos hcond]
      have hm : normExt c ∉ acc := by
        have h2 := ((Bool.and_eq_true _ _).mp hcond).2
        simpa using h2
      simp [List.nodup_append, h, hm]
    · rw [if_neg hcond]
      exact h

/-- C8: `ParseExtensions("")` is the empty set; the result never contains a
duplicate; and a string is in the result exactly when it is non-empty and is
the normalisation — trimmed, lower-cased, one leading dot stripped — of some
comma-separated component of the input. -/
theorem ParseExtensions_normalised :
    ParseExtensions "" = [] ∧
    (∀ raw, (ParseExtensions raw).Nodup) ∧
    (∀ raw x, x ∈ ParseExtensions raw ↔
        x ≠ "" ∧ ∃ c ∈ splitComma raw, normExt c = x) := by
  refine ⟨rfl, ?_, ?_⟩
  · intro raw
    by_cases h : raw = ""
    · subst h
      exact List.nodup_nil
    · rw [ParseExtensions, if_neg (by simpa using h)]
      exact insertExt_foldl_nodup _ [] List.nodup_nil
  · intro raw x
    by_cases h : raw = ""
    · subst h
      show x ∈ ([] : List String) ↔ _
      simp only [List.not_mem_nil, false_iff]
      rintro ⟨hx, d, hd, hdx⟩
      have hd0 : d = "" := by simpa [splitComma, splitCore] using hd
      subst hd0
      have h0 : normExt "" = "" := by decide
      rw [h0] at hdx
      exact hx hdx.symm
    · rw [ParseExtensions, if_neg (by simpa using h), insertExt_foldl_mem]
      simp

/-! ## Claim C1: sliding-window debounce emits exactly once -/

theorem runMsgs_cons (exts : List String) (fr : String → Bool) (s : WState)
    (m : WMsg) (msgs : List WMsg) :
    runMsgs exts fr s (m :: msgs) = runMsgs exts fr (processMsg exts fr s m) msgs :=
  rfl

theorem runMsgs_append (exts : List String) (fr : String → Bool) (s : WState)
    (l₁ l₂ : List WMsg) :
    runMsgs exts fr s (l₁ ++ l₂) = runMsgs exts fr (runMsgs exts fr s l₁) l₂ :=
  List.foldl_append _ _ _ _

/-- A Create/Write raw event bumps the path's generation and emits nothing. -/
theorem processMsg_write (exts : List String) (fr : String → Bool) (s : WState)
    (path : String) :
    processMsg exts fr s (WMsg.event path fsnotifyWrite)
      = { s with gens := ainsert s.gens path (alookupD s.gens path + 1),
                 timers := ainsert s.timers path (alookupD s.gens path + 1) } :=
  rfl

/-- Processing a burst of `n` Write events on `path` adds `n` to the path's
generation and emits nothing. -/
theorem runMsgs_replicate_write (exts : List String) (fr : String → Bool)
    (path : String) (n : Nat) :
    ∀ s : WState,
      alookupD (runMsgs exts fr s
          (List.replicate n (WMsg.event path fsnotifyWrite))).gens path
        = alookupD s.gens path + n ∧
      (runMsgs exts fr s
          (List.replicate n (WMsg.event path fsnotifyWrite))).out = s.out := by
  induction n with
  | zero => intro s; exact ⟨rfl, rfl⟩
  | succ n ih =>
    intro s
    rw [List.replicate_succ, runMsgs_cons, processMsg_write]
    obtain ⟨hg, ho⟩ := ih
      { s with gens := ainsert s.gens path (alookupD s.gens path + 1),
               timers := ainsert s.timers path (alookupD s.gens path + 1) }
    rw [hg, ho]
    refine ⟨?_, rfl⟩
    show alookupD (ainsert s.gens path (alookupD s.gens path + 1)) path + n
        = alookupD s.gens path + (n + 1)
    rw [alookupD_ainsert_self]
    omega

/-- When every event of a non-empty burst arrives within the debounce delay of
its predecessor, every timer but the last is stopped before it fires: the only
message reaching `timerCh` carries the final generation. -/
theorem firedGens_within (delay : Nat) :
    ∀ (times : List Nat) (g : Nat), withinDelay delay times = true →
      times ≠ [] → firedGens delay g times = [g + times.length] := by
  intro times
  induction times with
  | nil => intro g _ hne; exact absurd rfl hne
  | cons t rest ih =>
    intro g hw _
    cases rest with
    | nil => rfl
    | cons t₂ rest₂ =>
      have hw' := hw
      rw [withinDelay] at hw'
      obtain ⟨h1, h2⟩ := Bool.and_eq_true_iff.mp hw'
      have hlt : t₂ < t + delay := of_decide_eq_true h1
      rw [firedGens, if_pos hlt]
      rw [ih (g + 1) h2 (by simp)]
      simp only [List.length_cons]
      congr 1
      omega

/-- C1: a finite sequence of Create/Write raw events on one path, each within
the debounce delay of its predecessor, produces exactly one ready-signal for
that path: every timer but the last is cancelled, the surviving timer's
generation matches, and `out` receives the path exactly once (provided the
extension filter and the readiness probe pass). -/
theorem watcher_debounce_exactly_once (exts : List String)
    (fr : String → Bool) (path : String) (times : List Nat)
    (hne : times ≠ []) (hw : withinDelay debounceDelay times = true)
    (hall : allowed path exts = true) (hfr : fr path = true) :
    (runMsgs exts fr initWState
        (List.replicate times.length (WMsg.event path fsnotifyWrite)
          ++ (firedGens debounceDelay 0 times).map (WMsg.timer path))).out
      = [path] := by
  rw [firedGens_within debounceDelay times 0 hw hne]
  rw [runMsgs_append]
  obtain ⟨hg, ho⟩ := runMsgs_replicate_write exts fr path times.length initWState
  set s₁ := runMsgs exts fr initWState
    (List.replicate times.length (WMsg.event path fsnotifyWrite)) with hs₁
  have hg' : alookupD s₁.gens path = times.length := by
    have h0 : alookupD initWState.gens path = 0 := rfl
    rw [hg, h0, Nat.zero_add]
  have ho' : s₁.out = [] := ho
  show (runMsgs exts fr s₁ [WMsg.timer path (0 + times.length)]).out = [path]
  rw [Nat.zero_add]
  show (processMsg exts fr s₁ (WMsg.timer path times.length)).out = [path]
  rw [processMsg]
  rw [hg']
  rw [bne_self_eq_false]
  simp only [Bool.false_eq_true, if_false, hall, Bool.not_true, hfr]
  rw [ho']
  rfl

/-- Witness for C1: events on `/watch/doc.pdf` at t = 0 ms and t = 100 ms
(within the 750 ms window), all extensions allowed, file readable: exactly one
ready-signal. -/
theorem watcher_debounce_exactly_once_witness :
    ([0, 100] : List Nat) ≠ [] ∧
    withinDelay debounceDelay [0, 100] = true ∧
    allowed "/watch/doc.pdf" [] = true ∧
    (runMsgs [] (fun _ => true) initWState
        (List.replicate ([0, 100] : List Nat).length
            (WMsg.event "/watch/doc.pdf" fsnotifyWrite)
          ++ (firedGens debounceDelay 0 [0, 100]).map
              (WMsg.timer "/watch/doc.pdf"))).out
      = ["/watch/doc.pdf"] :=
  ⟨by decide, by decide, rfl,
   watcher_debounce_exactly_once [] (fun _ => true) "/watch/doc.pdf" [0, 100]
     (by decide) (by decide) rfl rfl⟩

/-! ## Uploader helper lemmas -/

/-- `copyFile` never touches any path other than its destination. -/
theorem copyFile_preserves (o : CopyOracle) (fs : FS) (src dst k : String)
    (h : k ≠ dst) : alookup (copyFile o fs src dst).2 k = alookup fs k := by
  unfold copyFile
  rcases o with ⟨op, cr, wr, sy⟩
  cases op <;> cases cr <;> cases wr <;> cases sy <;>
    · simp only []
      cases hl : alookup fs src <;>
        simp [hl, alookup_ainsert_ne _ _ _ _ h]

/-- A successful `copyFile` writes exactly the source's contents at the
destination. -/
theorem copyFile_ok (o : CopyOracle) (fs : FS) (src dst : String) (c : Bytes)
    (hsrc : alookup fs src = some c)
    (hok : (copyFile o fs src dst).1 = true) :
    (copyFile o fs src dst).2 = ainsert fs dst c := by
  rcases o with ⟨op, cr, wr, sy⟩
  cases op <;> cases cr <;> cases wr <;> cases sy <;>
    simp_all [copyFile]

/-- The HTTP request built by `postDocument` carries the given title and the
basename of the posted file. -/
theorem postDocument_req (cfg : Config) (mimeOf : String → String)
    (http : HttpOutcome) (fs : FS) (filePath title : String) (r : PostReq)
    (hr : (postDocument cfg mimeOf http fs filePath title).1 = some r) :
    r.title = title ∧ r.docFilename = filepathBase filePath := by
  unfold postDocument at hr
  cases hl : alookup fs filePath with
  | none =>
    rw [hl] at hr
    exact absurd hr (by simp)
  | some content =>
    rw [hl] at hr
    cases http with
    | transportErr =>
      simp only [] at hr
      obtain rfl := Option.some.inj hr
      exact ⟨rfl, rfl⟩
    | response st body =>
      simp only [] at hr
      split at hr <;>
        · obtain rfl := Option.some.inj hr
          exact ⟨rfl, rfl⟩

/-- The spec's upload-failure predicate: a transport error or a status
outside [200, 300). -/
def httpFailed : HttpOutcome → Bool
  | .transportErr => true
  | .response status _ => status < 200 || 300 ≤ status

/-- A failed transport or a non-2xx status makes `postDocument` fail. -/
theorem postDocument_fail (cfg : Config) (mimeOf : String → String)
    (http : HttpOutcome) (fs : FS) (filePath title : String)
    (hf : httpFailed http = true) :
    (postDocument cfg mimeOf http fs filePath title).2 = false := by
  unfold postDocument
  cases hl : alookup fs filePath with
  | none => rfl
  | some content =>
    cases http with
    | transportErr => rfl
    | response st body =>
      simp only [httpFailed] at hf
      simp only [hf, if_true]

theorem goTrimSuffix_self (s : String) : goTrimSuffix s s = "" := by
  unfold goTrimSuffix
  rw [if_pos (by simp [List.isSuffixOf]), Nat.sub_self, List.take_zero]

/-- Whenever `Upload` actually sends a request, its title is the stem of the
original filename and its document part is named after the basename of the
file actually posted. -/
theorem upload_req_spec (cfg : Config) (env : UploadEnv) (fs : FS)
    (filePath : String) (r : PostReq)
    (hr : (Upload cfg env fs filePath).req = some r) :
    r.title = goTrimSuffix (filepathBase filePath)
        (filepathExt (filepathBase filePath)) ∧
    r.docFilename = filepathBase (effectivePath cfg env filePath) := by
  unfold Upload at hr
  unfold effectivePath
  by_cases hren : cfg.renameToUUID = true
  · rw [if_pos hren] at hr
    rw [if_pos hren]
    simp only [] at hr
    by_cases hcp : (copyFile env.uuidCopy fs filePath
        (joinPath tempDir (env.uuid ++ filepathExt filePath))).1 = true
    · rw [hcp] at hr
      simp only [Bool.not_true, Bool.false_eq_true, if_false] at hr
      unfold uploadCore at hr
      simp only [] at hr
      split at hr <;> exact postDocument_req _ _ _ _ _ _ _ hr
    · rw [Bool.eq_false_iff.mpr hcp] at hr
      simp only [Bool.not_false, if_true] at hr
      exact absurd hr (by simp)
  · rw [if_neg hren] at hr
    rw [if_neg hren]
    unfold uploadCore at hr
    simp only [] at hr
    split at hr <;> exact postDocument_req _ _ _ _ _ _ _ hr

/-! ## Concrete fixtures used by witnesses -/

def cfgDel : Config :=
  { watchDir := "/watch", paperlessURL := "http://paperless.local"
    token := "tok", allowedExts := ["pdf"], renameToUUID := false
    afterUpload := "delete", backupDir := "" }

def cfgBak : Config := { cfgDel with afterUpload := "backup", backupDir := "/backup" }

def cfgUuid : Config := { cfgDel with renameToUUID := true }

def fsW : FS := [("/watch/doc.pdf", [10, 20, 30])]

def mimeW : String → String := fun e => if e == ".pdf" then "application/pdf" else ""

def actionOk : ActionOracle := ⟨false, ⟨false, copyOk, false⟩⟩

def envOk : UploadEnv := ⟨"u-1", mimeW, .response 200 "id", copyOk, actionOk⟩

def env500 : UploadEnv := { envOk with http := .response 500 "boom" }

/-! ## Claim C4: success iff 2xx; failed upload leaves the source -/

/-- C4: `postDocument` succeeds exactly when the HTTP status is in [200, 300);
a transport error always fails; and when the HTTP outcome is a failure,
`Upload` returns an error before the disposition step, leaving the original
source file untouched at its original path. -/
theorem upload_failure_leaves_source :
    (∀ (cfg : Config) (mimeOf : String → String) (fs : FS)
        (p t body : String) (st : Nat) (c : Bytes),
        alookup fs p = some c →
        ((postDocument cfg mimeOf (HttpOutcome.response st body) fs p t).2 = true
          ↔ (200 ≤ st ∧ st < 300))) ∧
    (∀ (cfg : Config) (mimeOf : String → String) (fs : FS) (p t : String),
        (postDocument cfg mimeOf HttpOutcome.transportErr fs p t).2 = false) ∧
    (∀ (cfg : Config) (env : UploadEnv) (fs : FS) (filePath : String),
        httpFailed env.http = true →
        (cfg.renameToUUID = true →
          joinPath tempDir (env.uuid ++ filepathExt filePath) ≠ filePath) →
        (Upload cfg env fs filePath).ok = false ∧
        alookup (Upload cfg env fs filePath).fs filePath
          = alookup fs filePath) := by
  refine ⟨?_, ?_, ?_⟩
  · intro cfg mimeOf fs p t body st c h
    unfold postDocument
    rw [h]
    simp only []
    by_cases hst : st < 200 ∨ 300 ≤ st
    · rw [if_pos (by simpa using hst)]
      simp only [Bool.false_eq_true, false_iff]
      omega
    · rw [if_neg (by simpa using hst)]
      simp only [true_iff]
      omega
  · intro cfg mimeOf fs p t
    unfold postDocument
    cases hl : alookup fs p <;> rfl
  · intro cfg env fs filePath hf hne
    unfold Upload uploadCore
    by_cases hren : cfg.renameToUUID = true
    · have hne' : filePath ≠ joinPath tempDir (env.uuid ++ filepathExt filePath) :=
        fun he => (hne hren) he.symm
      rw [if_pos hren]
      simp only []
      by_cases hcp : (copyFile env.uuidCopy fs filePath
          (joinPath tempDir (env.uuid ++ filepathExt filePath))).1 = true
      · rw [hcp]
        simp only [Bool.not_true, Bool.false_eq_true, if_false]
        rw [postDocument_fail _ _ _ _ _ _ hf]
        simp only [Bool.not_false, if_true]
        refine ⟨by trivial, ?_⟩
        rw [alookup_aerase_ne _ _ _ hne']
        exact copyFile_preserves _ _ _ _ _ hne'
      · rw [Bool.eq_false_iff.mpr hcp]
        simp only [Bool.not_false, if_true]
        refine ⟨by trivial, ?_⟩
        exact copyFile_preserves _ _ _ _ _ hne'
    · rw [if_neg hren]
      simp only []
      rw [postDocument_fail _ _ _ _ _ _ hf]
      simp only [Bool.not_false, if_true]
      exact ⟨by trivial, by trivial⟩

/-- Witness for C4: HTTP 500 with UUID renaming enabled — the upload fails
and the source file is still present with its contents. -/
theorem upload_failure_leaves_source_witness :
    alookup fsW "/watch/doc.pdf" = some [10, 20, 30] ∧
    httpFailed env500.http = true ∧
    (((postDocument cfgDel mimeW (HttpOutcome.response 500 "boom") fsW
        "/watch/doc.pdf" "doc").2 = true) ↔ (200 ≤ 500 ∧ 500 < 300)) ∧
    (Upload cfgUuid env500 fsW "/watch/doc.pdf").ok = false ∧
    alookup (Upload cfgUuid env500 fsW "/watch/doc.pdf").fs "/watch/doc.pdf"
      = alookup fsW "/watch/doc.pdf" :=
  ⟨by decide, by decide,
   upload_failure_leaves_source.1 cfgDel mimeW fsW "/watch/doc.pdf" "doc"
     "boom" 500 [10, 20, 30] (by decide),
   (upload_failure_leaves_source.2.2 cfgUuid env500 fsW "/watch/doc.pdf"
     (by decide) (fun _ => by decide)).1,
   (upload_failure_leaves_source.2.2 cfgUuid env500 fsW "/watch/doc.pdf"
     (by decide) (fun _ => by decide)).2⟩

/-! ## Claim C5: title is the stem of the original filename -/

/-- C5: whenever `Upload` sends a request, its `title` field is the
extension-stripped basename of the *original* filename — whether or not
rename-to-UUID is enabled — while the document part's `filename` is the
basename of the file actually uploaded. -/
theorem upload_title_and_filename (cfg : Config) (env : UploadEnv) (fs : FS)
    (filePath : String) (r : PostReq)
    (hr : (Upload cfg env fs filePath).req = some r) :
    r.title = goTrimSuffix (filepathBase filePath)
        (filepathExt (filepathBase filePath)) ∧
    r.docFilename = filepathBase (effectivePath cfg env filePath) :=
  upload_req_spec cfg env fs filePath r hr

def reqW : PostReq :=
  { endpoint := "http://paperless.local/api/documents/post_document/"
    authToken := "Token tok", docFilename := "u-1.pdf"
    docMime := "application/pdf", docContent := [10, 20, 30], title := "doc" }

/-- Witness for C5: with UUID renaming on, the title is `"doc"` (stem of the
original `doc.pdf`) while the document part is named `u-1.pdf`. -/
theorem upload_title_and_filename_witness :
    (Upload cfgUuid envOk fsW "/watch/doc.pdf").req = some reqW ∧
    (reqW.title = goTrimSuffix (filepathBase "/watch/doc.pdf")
        (filepathExt (filepathBase "/watch/doc.pdf")) ∧
     reqW.docFilename
        = filepathBase (effectivePath cfgUuid envOk "/watch/doc.pdf")) :=
  ⟨by decide,
   upload_title_and_filename cfgUuid envOk fsW "/watch/doc.pdf" reqW (by decide)⟩

/-! ## Claim C9: a filename that is all extension gets an empty title -/

/-- C9: when the original basename coincides with its own extension (for
example `.pdf`), the stem is empty, so the `title` field sent to the remote
endpoint is the empty string rather than the filename. -/
theorem upload_dotfile_empty_title (cfg : Config) (env : UploadEnv)
    (fs : FS) (filePath : String)
    (hext : filepathExt (filepathBase filePath) = filepathBase filePath)
    (r : PostReq) (hr : (Upload cfg env fs filePath).req = some r) :
    r.title = "" := by
  have h := (upload_req_spec cfg env fs filePath r hr).1
  rw [hext, goTrimSuffix_self] at h
  exact h

def fsDot : FS := [("/watch/.pdf", [7])]

def reqDot : PostReq :=
  { endpoint := "http://paperless.local/api/documents/post_document/"
    authToken := "Token tok", docFilename := ".pdf"
    docMime := "application/pdf", docContent := [7], title := "" }

/-- Witness for C9: uploading `/watch/.pdf` sends an empty title. -/
theorem upload_dotfile_empty_title_witness :
    filepathExt (filepathBase "/watch/.pdf") = filepathBase "/watch/.pdf" ∧
    (Upload cfgDel envOk fsDot "/watch/.pdf").req = some reqDot ∧
    reqDot.title = "" :=
  ⟨by decide, by decide,
   upload_dotfile_empty_title cfgDel envOk fsDot "/watch/.pdf" (by decide)
     reqDot (by decide)⟩

/-! ## Claim C7: the temp UUID copy is removed on every exit path -/

/-- C7: with rename-to-UUID enabled, once the temp copy has been created (and
its deferred removal registered), the temp file is gone from the final
filesystem on every exit path of the upload attempt — success, upload
failure, or disposition failure alike. -/
theorem upload_temp_cleanup (cfg : Config) (env : UploadEnv) (fs : FS)
    (filePath : String) (hren : cfg.renameToUUID = true)
    (hcopy : (copyFile env.uuidCopy fs filePath
        (joinPath tempDir (env.uuid ++ filepathExt filePath))).1 = true) :
    alookup (Upload cfg env fs filePath).fs
        (joinPath tempDir (env.uuid ++ filepathExt filePath)) = none := by
  unfold Upload uploadCore
  rw [if_pos hren]
  simp only []
  rw [hcopy]
  simp only [Bool.not_true, Bool.false_eq_true, if_false]
  split
  · exact alookup_aerase_self _ _
  · exact alookup_aerase_self _ _

/-- Witness for C7 on the success path: after a successful upload of
`/watch/doc.pdf` with UUID renaming, `/tmp/u-1.pdf` is gone. -/
theorem upload_temp_cleanup_witness :
    cfgUuid.renameToUUID = true ∧
    (copyFile envOk.uuidCopy fsW "/watch/doc.pdf"
        (joinPath tempDir (envOk.uuid ++ filepathExt "/watch/doc.pdf"))).1
      = true ∧
    alookup (Upload cfgUuid envOk fsW "/watch/doc.pdf").fs
        (joinPath tempDir (envOk.uuid ++ filepathExt "/watch/doc.pdf"))
      = none :=
  ⟨by decide, by decide,
   upload_temp_cleanup cfgUuid envOk fsW "/watch/doc.pdf" (by decide)
     (by decide)⟩

/-! ## Claim C6: successful backup disposition -/

/-- C6: after a successful `postUploadAction` with disposition Backup, the
original file sits in the backup directory under its original basename with
its exact byte content, and the source path is gone — whether the move went
through `os.Rename` or through the cross-device copy-then-delete fallback
(the oracle `o` ranges over both). -/
theorem backup_moves_original (cfg : Config) (o : ActionOracle) (fs : FS)
    (src : String) (c : Bytes)
    (hb : cfg.afterUpload = afterUploadBackup)
    (hsrc : alookup fs src = some c)
    (hne : joinPath cfg.backupDir (filepathBase src) ≠ src)
    (hok : (postUploadAction cfg o fs src).1 = true) :
    alookup (postUploadAction cfg o fs src).2
        (joinPath cfg.backupDir (filepathBase src)) = some c ∧
    alookup (postUploadAction cfg o fs src).2 src = none := by
  have hdel : (afterUploadBackup == afterUploadDelete) = false := rfl
  have hbak : (afterUploadBackup == afterUploadBackup) = true := rfl
  unfold postUploadAction at hok ⊢
  rw [hb, hdel] at hok ⊢
  simp only [Bool.false_eq_true, if_false, hbak, if_true] at hok ⊢
  unfold moveFile at hok ⊢
  rw [hsrc] at hok ⊢
  by_cases hrf : o.move.renameFails = true
  · rw [hrf] at hok ⊢
    simp only [Bool.not_true, Bool.false_eq_true, if_false] at hok ⊢
    by_cases hcp : (copyFile o.move.copy fs src
        (joinPath cfg.backupDir (filepathBase src))).1 = true
    · rw [hcp] at hok ⊢
      simp only [Bool.not_true, Bool.false_eq_true, if_false] at hok ⊢
      by_cases hrm : o.move.removeFails = true
      · rw [hrm] at hok
        simp at hok
      · rw [Bool.eq_false_iff.mpr hrm] at hok ⊢
        simp only [Bool.false_eq_true, if_false] at hok ⊢
        constructor
        · rw [alookup_aerase_ne _ _ _ hne,
            copyFile_ok o.move.copy fs src _ c hsrc hcp]
          exact alookup_ainsert_self _ _ _
        · exact alookup_aerase_self _ _
    · rw [Bool.eq_false_iff.mpr hcp] at hok
      simp at hok
  · rw [Bool.eq_false_iff.mpr hrf] at hok ⊢
    simp only [Bool.not_false, if_true] at hok ⊢
    constructor
    · exact alookup_ainsert_self _ _ _
    · rw [alookup_ainsert_ne _ _ _ _ (fun he => hne he.symm)]
      exact alookup_aerase_self _ _

def moveX : MoveOracle := ⟨true, copyOk, false⟩

def actionX : ActionOracle := ⟨false, moveX⟩

/-- Witness for C6, exercising the cross-device fallback (`os.Rename` fails,
copy-then-delete succeeds): the backup copy is byte-identical and the source
is gone. -/
theorem backup_moves_original_witness :
    cfgBak.afterUpload = afterUploadBackup ∧
    alookup fsW "/watch/doc.pdf" = some [10, 20, 30] ∧
    (postUploadAction cfgBak actionX fsW "/watch/doc.pdf").1 = true ∧
    (alookup (postUploadAction cfgBak actionX fsW "/watch/doc.pdf").2
        (joinPath cfgBak.backupDir (filepathBase "/watch/doc.pdf"))
      = some [10, 20, 30] ∧
    alookup (postUploadAction cfgBak actionX fsW "/watch/doc.pdf").2
        "/watch/doc.pdf" = none) :=
  ⟨by decide, by decide, by decide,
   backup_moves_original cfgBak actionX fsW "/watch/doc.pdf" [10, 20, 30]
     (by decide) (by decide) (by decide) (by decide)⟩

/-! ## Claim C10: copy-then-delete order in moveFile -/

/-- C10: in `moveFile`'s cross-device fallback, if the copy (including the
final sync) fails then `moveFile` returns the error and the source file is
untouched at its path; and the source can only have been removed when the
copy fully succeeded — in which case the destination holds the source's
exact contents. -/
theorem moveFile_fallback_order (o : MoveOracle) (fs : FS) (src dst : String)
    (c : Bytes) (hne : dst ≠ src) (hsrc : alookup fs src = some c)
    (hrf : o.renameFails = true) :
    ((copyFile o.copy fs src dst).1 = false →
        moveFile o fs src dst = (false, (copyFile o.copy fs src dst).2) ∧
        alookup (copyFile o.copy fs src dst).2 src = some c) ∧
    (alookup (moveFile o fs src dst).2 src = none →
        (copyFile o.copy fs src dst).1 = true ∧
        alookup (moveFile o fs src dst).2 dst = some c) := by
  have hpres : alookup (copyFile o.copy fs src dst).2 src = some c := by
    rw [copyFile_preserves _ _ _ _ _ (fun he => hne he.symm)]
    exact hsrc
  constructor
  · intro hcp
    unfold moveFile
    rw [hsrc, hrf]
    simp only [Bool.not_true, Bool.false_eq_true, if_false]
    rw [hcp]
    simp only [Bool.not_false, if_true]
    exact ⟨by trivial, hpres⟩
  · intro hgone
    unfold moveFile at hgone ⊢
    rw [hsrc, hrf] at hgone ⊢
    simp only [Bool.not_true, Bool.false_eq_true, if_false] at hgone ⊢
    by_cases hcp : (copyFile o.copy fs src dst).1 = true
    · rw [hcp] at hgone ⊢
      simp only [Bool.not_true, Bool.false_eq_true, if_false] at hgone ⊢
      by_cases hrm : o.removeFails = true
      · simp only [hrm, if_true] at hgone
        rw [hpres] at hgone
        exact absurd hgone (by simp)
      · rw [Bool.eq_false_iff.mpr hrm] at hgone ⊢
        simp only [Bool.false_eq_true, if_false] at hgone ⊢
        refine ⟨by trivial, ?_⟩
        rw [alookup_aerase_ne _ _ _ hne,
          copyFile_ok o.copy fs src dst c hsrc hcp]
        exact alookup_ainsert_self _ _ _
    · rw [Bool.eq_false_iff.mpr hcp] at hgone
      simp only [Bool.not_false, if_true] at hgone
      rw [hpres] at hgone
      exact absurd hgone (by simp)

def moveSyncFail : MoveOracle := ⟨true, ⟨false, false, false, true⟩, false⟩

/-- Witness for C10: with a failing `Sync` in the fallback copy, `moveFile`
reports the error and the source file is still in place. -/
theorem moveFile_fallback_order_witness :
    ("/backup/doc.pdf" : String) ≠ "/watch/doc.pdf" ∧
    alookup fsW "/watch/doc.pdf" = some [10, 20, 30] ∧
    moveSyncFail.renameFails = true ∧
    (copyFile moveSyncFail.copy fsW "/watch/doc.pdf" "/backup/doc.pdf").1
      = false ∧
    (moveFile moveSyncFail fsW "/watch/doc.pdf" "/backup/doc.pdf"
        = (false,
           (copyFile moveSyncFail.copy fsW "/watch/doc.pdf"
             "/backup/doc.pdf").2) ∧
      alookup (copyFile moveSyncFail.copy fsW "/watch/doc.pdf"
          "/backup/doc.pdf").2 "/watch/doc.pdf" = some [10, 20, 30]) :=
  ⟨by decide, by decide, by decide, by decide,
   (moveFile_fallback_order moveSyncFail fsW "/watch/doc.pdf"
      "/backup/doc.pdf" [10, 20, 30] (by decide) (by decide) (by decide)).1
     (by decide)⟩

end PaperlessLink
